import Mathlib

/-!
Verification development for the traj-runner mission execution core
(`CargarEjecutar.py`).  The Python source is embedded shallowly:

* timestamps are exact rationals (microseconds divided by `10^6`);
* Python's `round` (round-half-to-even) is `rhe` / `roundTo`;
* the mutable globals `last_lat, last_lon, last_alt, inic_alt` form `EndRef`,
  the globals `current_lat, current_lon, current_alt` form `Pos`;
* the local counters `a, b, c, last_sim_time` of `log_odometry` form
  `RecState`; one loop iteration is `logStep`, the whole loop is `runLog`;
* a Python `TypeError` raised while composing a row or comparing positions
  is the `crashed` outcome;
* `attempt_takeoff` is modelled with an abstract per-attempt outcome
  (airborne confirmed / 1-second window elapsed / exception from arm/start);
* the `asyncio.wait` + `task.cancel()` epilogue of `run` is modelled as the
  literal sequence of coordination operations it performs.
-/

/-- Round-half-to-even of a rational: the rounding Python's `round(x)` and
`round(x, n)` perform on the (exactly represented) value. -/
def rhe (q : ℚ) : ℤ :=
  if q - ⌊q⌋ < 1/2 then ⌊q⌋
  else if 1/2 < q - ⌊q⌋ then ⌊q⌋ + 1
  else if ⌊q⌋ % 2 = 0 then ⌊q⌋ else ⌊q⌋ + 1

/-- `round(x, n)`: round to `n` decimal digits, half to even. -/
def roundTo (n : ℕ) (x : ℚ) : ℚ := (rhe (x * 10 ^ n) : ℚ) / 10 ^ n

/-- One waypoint item of a mission plan: a command code and its parameter
list (`mission.items[k]` in the plan file). -/
structure MissionItem where
  command : ℤ
  params : List ℚ
deriving DecidableEq

/-- The `plannedHomePosition` triple of a plan file. -/
structure HomePos where
  lat : ℚ
  lon : ℚ
  alt : ℚ
deriving DecidableEq

/-- A parsed mission plan: `mission.items` and the optional
`mission.plannedHomePosition`. -/
structure MissionPlan where
  items : List MissionItem
  plannedHomePosition : Option HomePos
deriving DecidableEq

/-- The four globals `last_lat, last_lon, last_alt, inic_alt` that hold the
expected end position and the base altitude (all start as `None`). -/
structure EndRef where
  last_lat : Option ℚ
  last_lon : Option ℚ
  last_alt : Option ℚ
  inic_alt : Option ℚ
deriving DecidableEq

/-- Errors of the mission-loading phase: a missing or malformed plan file
(`FileNotFoundError` / `JSONDecodeError`, the spec's `MissionParseError`),
or an out-of-range `params` access (`IndexError`). -/
inductive LoadError where
  | missionParseError
  | indexError
deriving DecidableEq

deriving instance DecidableEq for Except

/-- Lines 47-58 of `CargarEjecutar.py`: derive the expected end position and
base altitude from the last waypoint and the planned home position.  When
either the item list is empty or the home position is absent, the guard
`if last_wp and planned_home_position:` skips the assignment and all four
globals stay `None`. -/
def deriveEnd (plan : MissionPlan) : Except LoadError EndRef :=
  match plan.items.getLast?, plan.plannedHomePosition with
  | some wp, some h =>
    if wp.command = 20 then
      .ok ⟨some h.lat, some h.lon, some h.alt, some 0⟩
    else
      match wp.params[4]?, wp.params[5]?, wp.params[6]? with
      | some p4, some p5, some p6 => .ok ⟨some p4, some p5, some p6, some h.alt⟩
      | _, _, _ => .error .indexError
  | _, _ => .ok ⟨none, none, none, none⟩

/-- The mission-loading phase (lines 40-58): opening/parsing the file raises
(`MissionParseError`) when it is missing or malformed; otherwise the end
reference is derived by `deriveEnd` and the mission proceeds. -/
def missionLoader (file : Option MissionPlan) : Except LoadError (MissionPlan × EndRef) :=
  match file with
  | none => .error .missionParseError
  | some plan => (deriveEnd plan).map (fun r => (plan, r))

/-- Well-formedness of the end reference as produced by the loader: whenever
the base altitude is set, the expected end coordinates are set too. -/
def RefOk (ref : EndRef) : Prop :=
  ref.inic_alt.isSome → (ref.last_lat.isSome ∧ ref.last_lon.isSome ∧ ref.last_alt.isSome)

/-- Outcome of one takeoff attempt: airborne confirmed within the 1-second
window, window elapsed without confirmation, or an exception raised by
arm / start-mission. -/
inductive AttemptResult where
  | success
  | timeout
  | exc
deriving DecidableEq

/-- The error raised after all takeoff attempts are exhausted (the
`RuntimeError` of line 131, the spec's `TakeoffFailure`). -/
inductive TakeoffError where
  | takeoffFailure
deriving DecidableEq

/-- Result of the takeoff sequencer: the final result (index of the
succeeding attempt, or the exhaustion error), the number of attempts made,
and the number of 1-second sleeps performed. -/
structure TkOut where
  result : Except TakeoffError ℕ
  attempts : ℕ
  sleeps : ℕ
deriving DecidableEq

/-- The `while attempt < max_attempts` loop of `attempt_takeoff`
(lines 103-129), recursing on the remaining attempt budget: success returns
immediately; a timeout or an exception increments `attempt` and sleeps one
second before the next attempt. -/
def takeoffLoop (outcome : ℕ → AttemptResult) : ℕ → ℕ → TkOut
  | _, 0 => ⟨.error .takeoffFailure, 0, 0⟩
  | attempt, fuel + 1 =>
    match outcome attempt with
    | .success => ⟨.ok attempt, 1, 0⟩
    | _ =>
      let r := takeoffLoop outcome (attempt + 1) fuel
      ⟨r.result, r.attempts + 1, r.sleeps + 1⟩

/-- `attempt_takeoff` (lines 101-131): at most `max_attempts = 5` attempts. -/
def attempt_takeoff (outcome : ℕ → AttemptResult) : TkOut :=
  takeoffLoop outcome 0 5

/-- One odometry sample: `time_usec`, quaternion and body velocity. -/
structure Odom where
  time_usec : ℕ
  qw : ℚ
  qx : ℚ
  qy : ℚ
  qz : ℚ
  vx : ℚ
  vy : ℚ
  vz : ℚ
deriving DecidableEq

/-- Snapshot of the shared position globals `current_lat, current_lon,
current_alt` at the moment an odometry sample is processed. -/
structure Pos where
  current_lat : Option ℚ
  current_lon : Option ℚ
  current_alt : Option ℚ
deriving DecidableEq

/-- The recorder's loop state: `last_sim_time` and the landing-detection
counters `a` (sample count, initialised to 1), `b` (settled flag, 0/1) and
`c` (sample count at settling, initialised to 1). -/
structure RecState where
  lastSimTime : Option ℚ
  a : ℤ
  b : ℤ
  c : ℤ
deriving DecidableEq

/-- One CSV row as written by `writer.writerow` (line 160-172). -/
structure Row where
  simTime : ℚ
  lat : ℚ
  lon : ℚ
  alt : Option ℚ
  qw : ℚ
  qx : ℚ
  qy : ℚ
  qz : ℚ
  vx : ℚ
  vy : ℚ
  vz : ℚ
deriving DecidableEq

/-- Result of processing one odometry sample: skipped as a sub-second
duplicate (state untouched), crashed with a `TypeError` (possibly after the
row was already written), or the row written with the successor state and
the flag saying the landing condition ended the loop. -/
inductive StepOut where
  | skipped
  | crashed (rowWritten : Option Row)
  | wrote (row : Row) (st : RecState) (finish : Bool)
deriving DecidableEq

/-- How a full run of the recorder loop ends. -/
inductive Outcome where
  | finished
  | exhausted
  | crashed
deriving DecidableEq

/-- `sim_time_s = odom.time_usec / 1e6` (line 149). -/
def simSec (o : Odom) : ℚ := (o.time_usec : ℚ) / 1000000

/-- The row dictionary of lines 160-172; `round(current_alt, 3) if
current_alt else None` makes `Alt` null both when the altitude is unknown
and when it is exactly zero (Python falsiness). -/
def mkRow (t clat clon : ℚ) (calt : Option ℚ) (o : Odom) : Row :=
  { simTime := roundTo 2 t
    lat := roundTo 7 clat
    lon := roundTo 7 clon
    alt := match calt with
           | some v => if v = 0 then none else some (roundTo 3 v)
           | none => none
    qw := roundTo 0 o.qw
    qx := roundTo 0 o.qx
    qy := roundTo 0 o.qy
    qz := roundTo 0 o.qz
    vx := roundTo 3 o.vx
    vy := roundTo 3 o.vy
    vz := roundTo 3 o.vz }

/-- The settle condition of line 177 with `b == 0` already known true,
mirroring Python's left-to-right short-circuit evaluation: comparing against
a `None` end coordinate raises (`none` result); a failed comparison stops
evaluation with `false`. -/
def settleCheck (ref : EndRef) (clat clon calt ia : ℚ) (a : ℤ) : Option Bool :=
  match ref.last_lat with
  | none => none
  | some ll =>
    if |clat - ll| < 1/100 then
      match ref.last_lon with
      | none => none
      | some lo =>
        if |clon - lo| < 1/100 then
          match ref.last_alt with
          | none => none
          | some la => some (decide (|calt - la - ia| < 1/2) && decide (a > 20))
        else some false
    else some false

/-- Lines 175-182 with the availability guard already passed: increment `a`,
possibly settle (`b := 1`, `c := a`), then report whether
`b == 1 and (a - c) > umbral_espera` terminates the loop.  `none` models the
`TypeError` of comparing against an unset end coordinate. -/
def landingEval (ref : EndRef) (clat clon calt ia : ℚ) (st : RecState) :
    Option (RecState × Bool) :=
  let a := st.a + 1
  match (if st.b = 0 then settleCheck ref clat clon calt ia a else some false) with
  | none => none
  | some settle =>
    let b := if settle then 1 else st.b
    let c := if settle then a else st.c
    some (⟨st.lastSimTime, a, b, c⟩, decide (b = 1 ∧ a - c > 20))

/-- Lines 174-182, entered with the row already written: the guard of line
175 runs landing evaluation only when `current_alt` and `inic_alt` are both
set (`current_lat` and `current_lon` are already known here); a `TypeError`
inside the comparison crashes the recorder after the row went out. -/
def logEval (ref : EndRef) (st1 : RecState) (row : Row) (clat clon : ℚ) :
    Option ℚ → Option ℚ → StepOut
  | some calt, some ia =>
    match landingEval ref clat clon calt ia st1 with
    | none => .crashed (some row)
    | some (st2, fn) => .wrote row st2 fn
  | _, _ => .wrote row st1 false

/-- Lines 156-182 after the de-duplication check: `round(current_lat, 7)` /
`round(current_lon, 7)` raise a `TypeError` when the shared position is not
yet known; otherwise the row is composed from the sample and the current
position, and landing evaluation follows. -/
def logWrite (ref : EndRef) (st1 : RecState) (t : ℚ) (o : Odom)
    (palt : Option ℚ) : Option ℚ → Option ℚ → StepOut
  | some clat, some clon =>
    logEval ref st1 (mkRow t clat clon palt o) clat clon palt ref.inic_alt
  | _, _ => .crashed none

/-- One iteration of the `async for odom in drone.telemetry.odometry()` loop
(lines 147-182): de-duplicate by rounded second, update `last_sim_time`,
then write the row and evaluate landing detection. -/
def logStep (ref : EndRef) (pos : Pos) (st : RecState) (o : Odom) : StepOut :=
  let t := simSec o
  let dup : Bool := match st.lastSimTime with
                    | some t0 => decide (rhe t = rhe t0)
                    | none => false
  if dup then .skipped
  else logWrite ref ⟨some t, st.a, st.b, st.c⟩ t o pos.current_alt
    pos.current_lat pos.current_lon

/-- A full run of the recorder loop: the rows written, the `sim_time_s`
values of the accepted (non-duplicate) samples, the final loop state and
the outcome. -/
structure RunOut where
  rows : List Row
  times : List ℚ
  state : RecState
  out : Outcome
deriving DecidableEq

/-- Run `log_odometry` over a stream of odometry samples, each paired with
the snapshot of the shared position globals at the moment it arrives. -/
def runLog (ref : EndRef) (st : RecState) : List (Pos × Odom) → RunOut
  | [] => ⟨[], [], st, .exhausted⟩
  | (pos, o) :: rest =>
    match logStep ref pos st o with
    | .skipped => runLog ref st rest
    | .crashed rowOpt => ⟨rowOpt.toList, [simSec o], st, .crashed⟩
    | .wrote row st' fn =>
      if fn then ⟨[row], [simSec o], st', .finished⟩
      else
        let r := runLog ref st' rest
        ⟨row :: r.rows, simSec o :: r.times, r.state, r.out⟩

/-- Initial recorder state (lines 135-138): `a = 1`, `b = 0`, `c = 1`,
`last_sim_time = None`. -/
def initState : RecState := ⟨none, 1, 0, 1⟩

/-- The position is within every landing tolerance of the expected end
(0.01 degrees latitude and longitude, 0.5 metres of expected altitude plus
base altitude), with all required values known. -/
def nearEndb (ref : EndRef) (pos : Pos) : Bool :=
  match ref.last_lat, ref.last_lon, ref.last_alt, ref.inic_alt,
        pos.current_lat, pos.current_lon, pos.current_alt with
  | some ll, some lo, some la, some ia, some clat, some clon, some calt =>
    decide (|clat - ll| < 1/100) && decide (|clon - lo| < 1/100) &&
      decide (|calt - la - ia| < 1/2)
  | _, _, _, _, _, _, _ => false

/-- Operations the mission controller performs once the first of the two
concurrent tasks completes (lines 92-95). -/
inductive CoordOp where
  | waitFirstCompleted
  | cancelTask (i : ℕ)
  | awaitTask (i : ℕ)
deriving DecidableEq

/-- Lines 92-95 of `run`: wait for the first task to complete, then call
`cancel()` on every pending task — and return, with no further await. -/
def coordinatorOps (pending : List ℕ) : List CoordOp :=
  CoordOp.waitFirstCompleted :: pending.map CoordOp.cancelTask

/-- Concrete example inputs used by the witness theorems: an odometry
sample at whole second `n`, an end reference derived from a home at
(10, 20, 100) with RTL semantics absent (base altitude 0 for simplicity of
exercising the tolerances), and position snapshots. -/
def exO (n : ℕ) : Odom := ⟨n * 1000000, 0, 0, 0, 0, 0, 0, 0⟩

def exRef : EndRef := ⟨some 10, some 20, some 100, some 0⟩

def exPos : Pos := ⟨some 10, some 20, some 100⟩

def exPosZeroAlt : Pos := ⟨some 10, some 20, some 0⟩

def exPosNoAlt : Pos := ⟨some 10, some 20, none⟩

def exPosNoLat : Pos := ⟨none, some 20, some 100⟩

/-! ### Basic facts about the rounding function -/

theorem rhe_floor_le (q : ℚ) : ⌊q⌋ ≤ rhe q := by
  unfold rhe
  split_ifs <;> omega

theorem rhe_le_floor_add_one (q : ℚ) : rhe q ≤ ⌊q⌋ + 1 := by
  unfold rhe
  split_ifs <;> omega

theorem rhe_mono {s t : ℚ} (h : s ≤ t) : rhe s ≤ rhe t := by
  rcases lt_or_eq_of_le (Int.floor_mono h) with hf | hf
  · calc rhe s ≤ ⌊s⌋ + 1 := rhe_le_floor_add_one s
    _ ≤ ⌊t⌋ := by omega
    _ ≤ rhe t := rhe_floor_le t
  · unfold rhe
    rw [hf]
    have hst : s - (⌊t⌋ : ℚ) ≤ t - ⌊t⌋ := by linarith
    split_ifs <;> first | omega | linarith

theorem rhe_intCast (n : ℤ) : rhe (n : ℚ) = n := by
  unfold rhe
  simp

theorem roundTo_intCast (k : ℕ) (n : ℤ) : roundTo k (n : ℚ) = n := by
  unfold roundTo
  have h1 : (n : ℚ) * 10 ^ k = ((n * 10 ^ k : ℤ) : ℚ) := by push_cast; ring
  rw [h1, rhe_intCast]
  push_cast
  have h10 : (10 : ℚ) ^ k ≠ 0 := by positivity
  field_simp

/-! ### Mission Loader (C3, C7) -/

/-- C3: for every mission plan with a non-empty item list and a
plannedHomePosition present, if the last item's command is 20
(return-to-launch) the expected end position is the home position and the
base altitude is 0; otherwise it is the last waypoint's params 4, 5, 6 and
the base altitude is the home altitude. -/
theorem C3_expected_end (plan : MissionPlan) (h : HomePos) (wp : MissionItem)
    (hlast : plan.items.getLast? = some wp)
    (hhome : plan.plannedHomePosition = some h) :
    (wp.command = 20 →
      deriveEnd plan = .ok ⟨some h.lat, some h.lon, some h.alt, some 0⟩) ∧
    (wp.command ≠ 20 → ∀ p4 p5 p6 : ℚ,
      wp.params[4]? = some p4 → wp.params[5]? = some p5 → wp.params[6]? = some p6 →
      deriveEnd plan = .ok ⟨some p4, some p5, some p6, some h.alt⟩) := by
  unfold deriveEnd
  rw [hlast, hhome]
  constructor
  · intro h20
    simp [h20]
  · intro h20 p4 p5 p6 h4 h5 h6
    simp [h20, h4, h5, h6]

/-- Witness for C3 at the two end-to-end scenarios of the spec. -/
theorem C3_expected_end_witness :
    deriveEnd ⟨[⟨20, []⟩], some ⟨10, 20, 100⟩⟩ =
      .ok ⟨some 10, some 20, some 100, some 0⟩ ∧
    deriveEnd ⟨[⟨16, [0, 0, 0, 0, 11, 21, 50]⟩], some ⟨10, 20, 100⟩⟩ =
      .ok ⟨some 11, some 21, some 50, some 100⟩ := by
  constructor
  · exact (C3_expected_end ⟨[⟨20, []⟩], some ⟨10, 20, 100⟩⟩ ⟨10, 20, 100⟩
      ⟨20, []⟩ rfl rfl).1 rfl
  · exact (C3_expected_end ⟨[⟨16, [0, 0, 0, 0, 11, 21, 50]⟩], some ⟨10, 20, 100⟩⟩
      ⟨10, 20, 100⟩ ⟨16, [0, 0, 0, 0, 11, 21, 50]⟩ rfl rfl).2
      (by decide) 11 21 50 rfl rfl rfl

/-- C7 counterexample: a plan with a non-empty item list whose last command
is not 20 and with no home position is loaded without any error — the
loader returns successfully with all four end-reference globals unset, and
the mission proceeds. -/
theorem C7_counterexample :
    missionLoader (some ⟨[⟨16, [0, 0, 0, 0, 11, 21, 50]⟩], none⟩) =
      .ok (⟨[⟨16, [0, 0, 0, 0, 11, 21, 50]⟩], none⟩, ⟨none, none, none, none⟩) ∧
    (⟨16, [0, 0, 0, 0, 11, 21, 50]⟩ : MissionItem).command ≠ 20 ∧
    ([⟨16, [0, 0, 0, 0, 11, 21, 50]⟩] : List MissionItem) ≠ [] := by
  refine ⟨rfl, by decide, by simp⟩

/-- C7 amended: the loader fails with `MissionParseError` exactly when the
mission file is missing or malformed; a plan lacking a home position is
loaded without error — the end reference stays unset and the mission
proceeds. -/
theorem C7_amended_loader (plan : MissionPlan)
    (hhome : plan.plannedHomePosition = none) :
    missionLoader none = .error .missionParseError ∧
    missionLoader (some plan) = .ok (plan, ⟨none, none, none, none⟩) := by
  refine ⟨rfl, ?_⟩
  have hd : deriveEnd plan = .ok ⟨none, none, none, none⟩ := by
    unfold deriveEnd
    rw [hhome]
    cases plan.items.getLast? <;> rfl
  simp [missionLoader, hd, Except.map]

/-- Witness for the amended C7. -/
theorem C7_amended_loader_witness :
    missionLoader none = .error .missionParseError ∧
    missionLoader (some ⟨[⟨16, [0, 0, 0, 0, 11, 21, 50]⟩], none⟩) =
      .ok (⟨[⟨16, [0, 0, 0, 0, 11, 21, 50]⟩], none⟩, ⟨none, none, none, none⟩) :=
  C7_amended_loader ⟨[⟨16, [0, 0, 0, 0, 11, 21, 50]⟩], none⟩ rfl

/-! ### Takeoff Sequencer (C4) -/

theorem takeoffLoop_all_fail (outcome : ℕ → AttemptResult) (k fuel : ℕ)
    (h : ∀ j, k ≤ j → j < k + fuel → outcome j ≠ .success) :
    takeoffLoop outcome k fuel = ⟨.error .takeoffFailure, fuel, fuel⟩ := by
  induction fuel generalizing k with
  | zero => rfl
  | succ n ih =>
    have hk : outcome k ≠ .success := h k le_rfl (by omega)
    unfold takeoffLoop
    cases houtcome : outcome k with
    | success => exact absurd houtcome hk
    | timeout => simp [ih (k + 1) (fun j h1 h2 => h j (by omega) (by omega))]
    | exc => simp [ih (k + 1) (fun j h1 h2 => h j (by omega) (by omega))]

theorem takeoffLoop_attempts_le (outcome : ℕ → AttemptResult) (k fuel : ℕ) :
    (takeoffLoop outcome k fuel).attempts ≤ fuel := by
  induction fuel generalizing k with
  | zero => simp [takeoffLoop]
  | succ n ih =>
    unfold takeoffLoop
    cases houtcome : outcome k with
    | success => simp
    | timeout => simpa using Nat.succ_le_succ (ih (k + 1))
    | exc => simpa using Nat.succ_le_succ (ih (k + 1))

theorem takeoffLoop_first_success (outcome : ℕ → AttemptResult) (m : ℕ) :
    ∀ k fuel, m < fuel → outcome (k + m) = .success →
    (∀ j, j < m → outcome (k + j) ≠ .success) →
    takeoffLoop outcome k fuel = ⟨.ok (k + m), m + 1, m⟩ := by
  induction m with
  | zero =>
    intro k fuel hm hs _
    match fuel, hm with
    | fuel + 1, _ =>
      unfold takeoffLoop
      rw [show k + 0 = k from rfl] at hs
      rw [hs]
      simp
  | succ n ih =>
    intro k fuel hm hs hmin
    match fuel, hm with
    | fuel + 1, _ =>
      have hk : outcome k ≠ .success := by
        have := hmin 0 (by omega)
        simpa using this
      unfold takeoffLoop
      have hrec := ih (k + 1) fuel (by omega)
        (by rw [show k + 1 + n = k + (n + 1) by omega]; exact hs)
        (fun j hj => by
          rw [show k + 1 + j = k + (j + 1) by omega]
          exact hmin (j + 1) (by omega))
      cases houtcome : outcome k with
      | success => exact absurd houtcome hk
      | timeout =>
        simp only [hrec]
        rw [show k + 1 + n = k + (n + 1) by omega]
      | exc =>
        simp only [hrec]
        rw [show k + 1 + n = k + (n + 1) by omega]

/-- C4: the takeoff sequencer makes at most 5 attempts; a timed-out attempt
or an exception from arm/start does not abort the loop but counts as a
failed attempt followed by a 1-second sleep; the first successful attempt
returns immediately; if airborne is never reported, exactly 5 attempts are
made, each followed by a 1-second sleep, and `TakeoffFailure` is raised. -/
theorem C4_takeoff_sequencer (outcome : ℕ → AttemptResult) :
    (attempt_takeoff outcome).attempts ≤ 5 ∧
    ((∀ k, k < 5 → outcome k ≠ .success) →
      attempt_takeoff outcome = ⟨.error .takeoffFailure, 5, 5⟩) ∧
    (∀ m, m < 5 → outcome m = .success → (∀ j, j < m → outcome j ≠ .success) →
      attempt_takeoff outcome = ⟨.ok m, m + 1, m⟩) := by
  refine ⟨takeoffLoop_attempts_le outcome 0 5, ?_, ?_⟩
  · intro hfail
    exact takeoffLoop_all_fail outcome 0 5 (fun j _ h2 => hfail j (by omega))
  · intro m hm hs hmin
    have := takeoffLoop_first_success outcome m 0 5 hm (by simpa using hs)
      (fun j hj => by simpa using hmin j hj)
    simpa using this

/-- Witness for C4: one run where every attempt raises an exception
(5 attempts, 5 sleeps, `TakeoffFailure`), and one run whose third attempt
reports airborne (immediate return after 3 attempts, 2 sleeps). -/
theorem C4_takeoff_sequencer_witness :
    attempt_takeoff (fun _ => .exc) = ⟨.error .takeoffFailure, 5, 5⟩ ∧
    attempt_takeoff (fun n => if n = 2 then .success else .exc) = ⟨.ok 2, 3, 2⟩ := by
  constructor
  · exact (C4_takeoff_sequencer _).2.1 (fun k _ h => nomatch h)
  · exact (C4_takeoff_sequencer _).2.2 2 (by omega) (by simp)
      (fun j hj => by simp [show j ≠ 2 by omega])

/-! ### Race Coordinator (C9) -/

/-- C9 counterexample: with the Position Sampler (task 0) pending after the
Trajectory Recorder completes, the coordinator's operation sequence is
exactly wait-then-cancel: it contains no await of the cancelled task before
returning. -/
theorem C9_counterexample :
    coordinatorOps [0] = [.waitFirstCompleted, .cancelTask 0] ∧
    CoordOp.awaitTask 0 ∉ coordinatorOps [0] := by
  refine ⟨rfl, ?_⟩
  intro hmem
  simp [coordinatorOps] at hmem

/-- C9 amended: when the first task completes, the coordinator cancels every
pending task but returns without awaiting any of them — the cancellation is
fire-and-forget. -/
theorem C9_amended_coordinator (pending : List ℕ) :
    (∀ i, i ∈ pending → CoordOp.cancelTask i ∈ coordinatorOps pending) ∧
    (∀ i, CoordOp.awaitTask i ∉ coordinatorOps pending) := by
  constructor
  · intro i hi
    exact List.mem_cons_of_mem _ (List.mem_map_of_mem _ hi)
  · intro i hmem
    simp [coordinatorOps] at hmem

/-- Witness for the amended C9. -/
theorem C9_amended_coordinator_witness :
    CoordOp.cancelTask 0 ∈ coordinatorOps [0] ∧
    CoordOp.awaitTask 0 ∉ coordinatorOps [0] :=
  ⟨(C9_amended_coordinator [0]).1 0 (by simp), (C9_amended_coordinator [0]).2 0⟩

/-! ### Step-level facts about the Trajectory Recorder -/

theorem settleCheck_true_iff {ref : EndRef} {clat clon calt ia : ℚ} {a : ℤ}
    {s : Bool} (hia : ref.inic_alt = some ia)
    (h : settleCheck ref clat clon calt ia a = some s) :
    s = true ↔ (nearEndb ref ⟨some clat, some clon, some calt⟩ = true ∧ a > 20) := by
  obtain ⟨rlat, rlon, ralt, rina⟩ := ref
  obtain rfl : rina = some ia := hia
  cases rlat with
  | none => exact absurd h (by simp [settleCheck])
  | some ll =>
    cases rlon with
    | none =>
      simp only [settleCheck] at h
      split_ifs at h with h1
      obtain rfl : (false : Bool) = s := Option.some.inj h
      simp [nearEndb]
    | some lo =>
      cases ralt with
      | none =>
        simp only [settleCheck] at h
        split_ifs at h with h1 h2
        · obtain rfl : (false : Bool) = s := Option.some.inj h
          simp [nearEndb]
        · obtain rfl : (false : Bool) = s := Option.some.inj h
          simp [nearEndb]
      | some la =>
        simp only [settleCheck] at h
        split_ifs at h with h1 h2
        · obtain rfl : (decide (|calt - la - ia| < 1/2) && decide (a > 20)) = s :=
            Option.some.inj h
          simp only [nearEndb, h1, h2]
          simp [h1, h2, and_assoc]
        · obtain rfl : (false : Bool) = s := Option.some.inj h
          rw [show (1 : ℚ)/100 = 100⁻¹ from one_div 100] at h2
          simp [nearEndb, h2]
        · obtain rfl : (false : Bool) = s := Option.some.inj h
          rw [show (1 : ℚ)/100 = 100⁻¹ from one_div 100] at h1
          simp [nearEndb, h1]

theorem settleCheck_isSome {ref : EndRef} {clat clon calt ia : ℚ} {a : ℤ}
    (hlat : ref.last_lat.isSome) (hlon : ref.last_lon.isSome)
    (halt : ref.last_alt.isSome) :
    (settleCheck ref clat clon calt ia a).isSome := by
  obtain ⟨rlat, rlon, ralt, rina⟩ := ref
  obtain ⟨ll, rfl⟩ := Option.isSome_iff_exists.mp hlat
  obtain ⟨lo, rfl⟩ := Option.isSome_iff_exists.mp hlon
  obtain ⟨la, rfl⟩ := Option.isSome_iff_exists.mp halt
  simp only [settleCheck]
  split_ifs <;> simp

theorem landingEval_inv {ref : EndRef} {clat clon calt ia : ℚ}
    {st st' : RecState} {fn : Bool}
    (h : landingEval ref clat clon calt ia st = some (st', fn)) :
    st'.lastSimTime = st.lastSimTime ∧ st'.a = st.a + 1 ∧
    (fn = true ↔ (st'.b = 1 ∧ st'.a - st'.c > 20)) ∧
    (st.b ≠ 0 → st'.b = st.b ∧ st'.c = st.c) ∧
    (st.b = 0 → ∃ s, settleCheck ref clat clon calt ia (st.a + 1) = some s ∧
      (s = true → st'.b = 1 ∧ st'.c = st.a + 1) ∧
      (s = false → st'.b = st.b ∧ st'.c = st.c)) := by
  simp only [landingEval] at h
  by_cases hb : st.b = 0
  · rw [if_pos hb] at h
    cases hsc : settleCheck ref clat clon calt ia (st.a + 1) with
    | none =>
      rw [hsc] at h
      exact absurd h (by simp)
    | some s =>
      rw [hsc] at h
      simp only [Option.some.injEq, Prod.mk.injEq] at h
      obtain ⟨hst, hfn⟩ := h
      subst hst
      subst hfn
      cases s with
      | true =>
        refine ⟨rfl, rfl, by simp [decide_eq_true_iff], fun hb' => absurd hb hb',
          fun _ => ⟨true, rfl, fun _ => ⟨by simp, by simp⟩, fun hf => absurd hf (by simp)⟩⟩
      | false =>
        refine ⟨rfl, rfl, by simp [decide_eq_true_iff], fun hb' => absurd hb hb',
          fun _ => ⟨false, rfl, fun ht => absurd ht (by simp), fun _ => ⟨by simp, by simp⟩⟩⟩
  · rw [if_neg hb] at h
    simp only [Option.some.injEq, Prod.mk.injEq] at h
    obtain ⟨hst, hfn⟩ := h
    subst hst
    subst hfn
    exact ⟨rfl, rfl, by simp [decide_eq_true_iff], fun _ => ⟨rfl, rfl⟩,
      fun hb0 => absurd hb0 hb⟩

theorem landingEval_isSome {ref : EndRef} {clat clon calt ia : ℚ} {st : RecState}
    (hlat : ref.last_lat.isSome) (hlon : ref.last_lon.isSome)
    (halt : ref.last_alt.isSome) :
    (landingEval ref clat clon calt ia st).isSome := by
  simp only [landingEval]
  by_cases hb : st.b = 0
  · rw [if_pos hb]
    have hs := @settleCheck_isSome ref clat clon calt ia (st.a + 1) hlat hlon halt
    cases hsc : settleCheck ref clat clon calt ia (st.a + 1) with
    | none => rw [hsc] at hs; simp at hs
    | some s => simp
  · rw [if_neg hb]
    simp

theorem logStep_dichotomy (ref : EndRef) (pos : Pos) (st : RecState) (o : Odom) :
    (∃ t0, st.lastSimTime = some t0 ∧ rhe (simSec o) = rhe t0 ∧
      logStep ref pos st o = .skipped) ∨
    ((∀ t0, st.lastSimTime = some t0 → rhe (simSec o) ≠ rhe t0) ∧
      logStep ref pos st o =
        logWrite ref ⟨some (simSec o), st.a, st.b, st.c⟩ (simSec o) o
          pos.current_alt pos.current_lat pos.current_lon) := by
  obtain ⟨lst, sa, sb, sc⟩ := st
  cases lst with
  | none => exact Or.inr ⟨by simp, by simp [logStep]⟩
  | some t0 =>
    by_cases hd : rhe (simSec o) = rhe t0
    · exact Or.inl ⟨t0, rfl, hd, by simp [logStep, hd]⟩
    · refine Or.inr ⟨?_, by simp [logStep, hd]⟩
      intro t1 ht1
      obtain rfl : t0 = t1 := Option.some.inj ht1
      exact hd

theorem logStep_dup {ref : EndRef} {pos : Pos} {st : RecState} {o : Odom} {t0 : ℚ}
    (hlst : st.lastSimTime = some t0) (hd : rhe (simSec o) = rhe t0) :
    logStep ref pos st o = .skipped := by
  obtain ⟨lst, sa, sb, sc⟩ := st
  obtain rfl : lst = some t0 := hlst
  simp [logStep, hd]

theorem logStep_accept {ref : EndRef} {pos : Pos} {st : RecState} {o : Odom}
    (hnd : ∀ t0, st.lastSimTime = some t0 → rhe (simSec o) ≠ rhe t0) :
    logStep ref pos st o =
      logWrite ref ⟨some (simSec o), st.a, st.b, st.c⟩ (simSec o) o
        pos.current_alt pos.current_lat pos.current_lon := by
  rcases logStep_dichotomy ref pos st o with ⟨t0, hlst, hd, _⟩ | ⟨_, heq⟩
  · exact absurd hd (hnd t0 hlst)
  · exact heq

theorem logWrite_wrote_inv {ref : EndRef} {st1 : RecState} {t : ℚ} {o : Odom}
    {palt plat plon : Option ℚ} {row : Row} {st' : RecState} {fn : Bool}
    (hw : logWrite ref st1 t o palt plat plon = .wrote row st' fn) :
    ∃ clat clon, plat = some clat ∧ plon = some clon ∧
      row = mkRow t clat clon palt o ∧
      ((∃ calt ia, palt = some calt ∧ ref.inic_alt = some ia ∧
          landingEval ref clat clon calt ia st1 = some (st', fn)) ∨
       ((palt = none ∨ ref.inic_alt = none) ∧ st' = st1 ∧ fn = false)) := by
  cases plat with
  | none => exact absurd hw (by simp [logWrite])
  | some clat =>
    cases plon with
    | none => exact absurd hw (by simp [logWrite])
    | some clon =>
      simp only [logWrite] at hw
      refine ⟨clat, clon, rfl, rfl, ?_⟩
      cases palt with
      | none =>
        simp only [logEval, StepOut.wrote.injEq] at hw
        exact ⟨hw.1.symm, Or.inr ⟨Or.inl rfl, hw.2.1.symm, hw.2.2.symm⟩⟩
      | some calt =>
        cases hia : ref.inic_alt with
        | none =>
          rw [hia] at hw
          simp only [logEval, StepOut.wrote.injEq] at hw
          exact ⟨hw.1.symm, Or.inr ⟨Or.inr rfl, hw.2.1.symm, hw.2.2.symm⟩⟩
        | some ia =>
          rw [hia] at hw
          simp only [logEval] at hw
          cases hle : landingEval ref clat clon calt ia st1 with
          | none =>
            rw [hle] at hw
            exact absurd hw (by simp)
          | some p =>
            obtain ⟨st2, f⟩ := p
            rw [hle] at hw
            simp only [StepOut.wrote.injEq] at hw
            obtain ⟨hrow, hst, hfn⟩ := hw
            subst hst
            subst hfn
            exact ⟨hrow.symm, Or.inl ⟨calt, ia, rfl, rfl, hle⟩⟩

theorem logWrite_not_crash {ref : EndRef} {st1 : RecState} {t : ℚ} {o : Odom}
    {palt plat plon : Option ℚ} (href : RefOk ref) (hlat : plat.isSome)
    (hlon : plon.isSome) (rowOpt : Option Row) :
    logWrite ref st1 t o palt plat plon ≠ .crashed rowOpt := by
  obtain ⟨clat, rfl⟩ := Option.isSome_iff_exists.mp hlat
  obtain ⟨clon, rfl⟩ := Option.isSome_iff_exists.mp hlon
  intro hw
  simp only [logWrite] at hw
  cases palt with
  | none => exact absurd hw (by simp [logEval])
  | some calt =>
    cases hia : ref.inic_alt with
    | none =>
      rw [hia] at hw
      exact absurd hw (by simp [logEval])
    | some ia =>
      rw [hia] at hw
      simp only [logEval] at hw
      have hsome := @landingEval_isSome ref clat clon calt ia st1
        (href (by simp [hia])).1 (href (by simp [hia])).2.1 (href (by simp [hia])).2.2
      cases hle : landingEval ref clat clon calt ia st1 with
      | none => rw [hle] at hsome; simp at hsome
      | some p =>
        obtain ⟨st2, f⟩ := p
        rw [hle] at hw
        exact absurd hw (by simp)

theorem logWrite_not_skipped {ref : EndRef} {st1 : RecState} {t : ℚ} {o : Odom}
    {palt plat plon : Option ℚ} :
    logWrite ref st1 t o palt plat plon ≠ .skipped := by
  intro hw
  cases plat with
  | none => exact absurd hw (by simp [logWrite])
  | some clat =>
    cases plon with
    | none => exact absurd hw (by simp [logWrite])
    | some clon =>
      simp only [logWrite] at hw
      cases palt with
      | none => exact absurd hw (by simp [logEval])
      | some calt =>
        cases hia : ref.inic_alt with
        | none =>
          rw [hia] at hw
          exact absurd hw (by simp [logEval])
        | some ia =>
          rw [hia] at hw
          simp only [logEval] at hw
          cases hle : landingEval ref clat clon calt ia st1 with
          | none => rw [hle] at hw; exact absurd hw (by simp)
          | some p =>
            obtain ⟨st2, f⟩ := p
            rw [hle] at hw
            exact absurd hw (by simp)

theorem rhe_natCast (n : ℕ) : rhe (n : ℚ) = n := by
  rw [show ((n : ℚ)) = (((n : ℤ)) : ℚ) by push_cast; ring, rhe_intCast]

theorem exO_simSec (n : ℕ) : simSec (exO n) = n := by
  simp only [simSec, exO]
  push_cast
  field_simp

theorem exStep1 : logStep exRef exPos ⟨none, 25, 0, 1⟩ (exO 1) =
    .wrote (mkRow 1 10 20 (some 100) (exO 1)) ⟨some 1, 26, 1, 26⟩ false := by
  rw [logStep_accept (by simp)]
  rw [exO_simSec]
  show logWrite exRef ⟨some 1, 25, 0, 1⟩ 1 (exO 1) (some 100) (some 10) (some 20) = _
  simp only [logWrite, logEval, exRef, landingEval, settleCheck]
  norm_num

theorem logStep_wrote_inv {ref : EndRef} {pos : Pos} {st : RecState} {o : Odom}
    {row : Row} {st' : RecState} {fn : Bool}
    (hw : logStep ref pos st o = .wrote row st' fn) :
    ∃ clat clon, pos.current_lat = some clat ∧ pos.current_lon = some clon ∧
      row = mkRow (simSec o) clat clon pos.current_alt o ∧
      ((∃ calt ia, pos.current_alt = some calt ∧ ref.inic_alt = some ia ∧
          landingEval ref clat clon calt ia ⟨some (simSec o), st.a, st.b, st.c⟩ =
            some (st', fn)) ∨
       ((pos.current_alt = none ∨ ref.inic_alt = none) ∧
          st' = ⟨some (simSec o), st.a, st.b, st.c⟩ ∧ fn = false)) := by
  rcases logStep_dichotomy ref pos st o with ⟨t0, _, _, hsk⟩ | ⟨_, heq⟩
  · rw [hsk] at hw
    exact absurd hw (by simp)
  · rw [heq] at hw
    exact logWrite_wrote_inv hw

theorem logStep_not_crash {ref : EndRef} {pos : Pos} {st : RecState} {o : Odom}
    (href : RefOk ref) (hlat : pos.current_lat.isSome)
    (hlon : pos.current_lon.isSome) (rowOpt : Option Row) :
    logStep ref pos st o ≠ .crashed rowOpt := by
  rcases logStep_dichotomy ref pos st o with ⟨t0, _, _, hsk⟩ | ⟨_, heq⟩
  · rw [hsk]
    simp
  · rw [heq]
    exact logWrite_not_crash href hlat hlon rowOpt

theorem logStep_wrote_lastSimTime {ref : EndRef} {pos : Pos} {st : RecState}
    {o : Odom} {row : Row} {st' : RecState} {fn : Bool}
    (hw : logStep ref pos st o = .wrote row st' fn) :
    st'.lastSimTime = some (simSec o) := by
  obtain ⟨clat, clon, _, _, _, hbr⟩ := logStep_wrote_inv hw
  rcases hbr with ⟨calt, ia, _, _, hle⟩ | ⟨_, hst, _⟩
  · exact (landingEval_inv hle).1
  · rw [hst]

theorem logStep_b_mono {ref : EndRef} {pos : Pos} {st : RecState} {o : Odom}
    {row : Row} {st' : RecState} {fn : Bool}
    (hw : logStep ref pos st o = .wrote row st' fn) (hb : st.b = 1) :
    st'.b = 1 ∧ st'.c = st.c := by
  obtain ⟨clat, clon, _, _, _, hbr⟩ := logStep_wrote_inv hw
  rcases hbr with ⟨calt, ia, _, _, hle⟩ | ⟨_, hst, _⟩
  · have h := (landingEval_inv hle).2.2.2.1 (by show st.b ≠ 0; simp [hb])
    exact ⟨h.1.trans (by show st.b = 1; exact hb), h.2⟩
  · rw [hst]
    exact ⟨hb, rfl⟩

theorem logStep_finish_cond {ref : EndRef} {pos : Pos} {st : RecState} {o : Odom}
    {row : Row} {st' : RecState}
    (hw : logStep ref pos st o = .wrote row st' true) :
    st'.b = 1 ∧ st'.a - st'.c > 20 := by
  obtain ⟨clat, clon, _, _, _, hbr⟩ := logStep_wrote_inv hw
  rcases hbr with ⟨calt, ia, _, _, hle⟩ | ⟨_, _, hfn⟩
  · exact ((landingEval_inv hle).2.2.1).mp rfl
  · exact absurd hfn (by simp)

theorem logStep_finish_iff {ref : EndRef} {pos : Pos} {st : RecState} {o : Odom}
    {row : Row} {st' : RecState} {fn : Bool}
    (halt : pos.current_alt.isSome) (hia : ref.inic_alt.isSome)
    (hw : logStep ref pos st o = .wrote row st' fn) :
    fn = true ↔ (st'.b = 1 ∧ st'.a - st'.c > 20) := by
  obtain ⟨clat, clon, _, _, _, hbr⟩ := logStep_wrote_inv hw
  rcases hbr with ⟨calt, ia, _, _, hle⟩ | ⟨hmiss, _, _⟩
  · exact (landingEval_inv hle).2.2.1
  · rcases hmiss with h | h
    · rw [h] at halt
      exact absurd halt (by simp)
    · rw [h] at hia
      exact absurd hia (by simp)

/-- C1: for every accepted trajectory row processed while the current
latitude, longitude, altitude and the base altitude are all known, the
settled flag transitions from 0 to 1 exactly when the incremented sample
count exceeds the settle threshold of 20 and the current position is within
0.01 degrees latitude, 0.01 degrees longitude and 0.5 metres of expected
end altitude plus base altitude; in particular it never becomes 1 while the
sample count is at most 20, however close the position is. -/
theorem C1_settled_transition (ref : EndRef) (pos : Pos) (st : RecState)
    (o : Odom) (row : Row) (st' : RecState) (fn : Bool)
    (halt : pos.current_alt.isSome) (hia : ref.inic_alt.isSome)
    (hw : logStep ref pos st o = .wrote row st' fn) :
    st'.a = st.a + 1 ∧
    (st.b = 0 → (st'.b = 1 ↔ (st'.a > 20 ∧ nearEndb ref pos = true))) ∧
    (st.b = 0 → st'.a ≤ 20 → st'.b = 0) := by
  obtain ⟨plat, plon, palt⟩ := pos
  obtain ⟨clat, clon, hplat, hplon, hrow, hbr⟩ := logStep_wrote_inv hw
  rcases hbr with ⟨calt, ia, hpalt, hria, hle⟩ | ⟨hmiss, _, _⟩
  swap
  · rcases hmiss with h | h
    · rw [h] at halt
      exact absurd halt (by simp)
    · rw [h] at hia
      exact absurd hia (by simp)
  obtain rfl : plat = some clat := hplat
  obtain rfl : plon = some clon := hplon
  obtain rfl : palt = some calt := hpalt
  have hinv := landingEval_inv hle
  have ha : st'.a = st.a + 1 := hinv.2.1
  refine ⟨ha, ?_, ?_⟩
  · intro hb0
    obtain ⟨s, hsc, hstrue, hsfalse⟩ := hinv.2.2.2.2 (by show st.b = 0; exact hb0)
    have hiff := settleCheck_true_iff hria hsc
    cases s with
    | true =>
      have h1 := hstrue rfl
      have h2 := hiff.mp rfl
      constructor
      · intro _
        exact ⟨by rw [ha]; exact h2.2, h2.1⟩
      · intro _
        exact h1.1
    | false =>
      constructor
      · intro hb1
        have h0 := hsfalse rfl
        exfalso
        have hbb : st'.b = st.b := h0.1
        omega
      · intro hcond
        have : (false : Bool) = true := hiff.mpr ⟨hcond.2, by rw [← ha]; exact hcond.1⟩
        exact absurd this (by simp)
  · intro hb0 hle20
    obtain ⟨s, hsc, hstrue, hsfalse⟩ := hinv.2.2.2.2 (by show st.b = 0; exact hb0)
    have hiff := settleCheck_true_iff hria hsc
    cases s with
    | true =>
      obtain ⟨_, h22⟩ := hiff.mp rfl
      omega
    | false =>
      have h0 : st'.b = st.b := (hsfalse rfl).1
      rw [h0]
      exact hb0

/-- C10: a trajectory row composed while the latest known absolute altitude
equals exactly 0 records a null Alt even though altitude data is available;
Alt is non-null exactly when the altitude is known and nonzero. -/
theorem C10_alt_zero_null (ref : EndRef) (pos : Pos) (st : RecState) (o : Odom)
    (row : Row) (st' : RecState) (fn : Bool)
    (hw : logStep ref pos st o = .wrote row st' fn) :
    (pos.current_alt = some 0 → row.alt = none) ∧
    (row.alt.isSome ↔ ∃ v, pos.current_alt = some v ∧ v ≠ 0) := by
  obtain ⟨clat, clon, _, _, hrow, _⟩ := logStep_wrote_inv hw
  subst hrow
  constructor
  · intro h0
    rw [h0]
    simp [mkRow]
  · cases hpa : pos.current_alt with
    | none => simp [mkRow, hpa]
    | some v =>
      by_cases hv : v = 0
      · subst hv
        simp [mkRow, hpa]
      · simp [mkRow, hpa, hv]

theorem exRef_ok : RefOk exRef := by
  intro _
  simp [exRef]

/-- C8 counterexample: an odometry sample arriving before any position fix
(current latitude unknown) crashes row composition with a `TypeError` —
`round(None, 7)` — so the recorder does fail for some availability states. -/
theorem C8_counterexample :
    logStep exRef exPosNoLat initState (exO 1) = .crashed none := by
  rw [logStep_accept (by simp [initState])]
  simp [exPosNoLat, logWrite]

/-- C8 amended: composing and appending the trajectory row never raises
provided the current latitude and longitude are known and the end reference
is well-formed; if the altitude is unavailable the row records a null Alt,
and landing evaluation runs only when altitude and base altitude are also
present — otherwise it is skipped without failing and without touching the
landing counters. -/
theorem C8_amended_no_failure (ref : EndRef) (pos : Pos) (st : RecState)
    (o : Odom) (href : RefOk ref) (hlat : pos.current_lat.isSome)
    (hlon : pos.current_lon.isSome) :
    (∀ rowOpt, logStep ref pos st o ≠ .crashed rowOpt) ∧
    (∀ row st' fn, logStep ref pos st o = .wrote row st' fn →
      (pos.current_alt = none → row.alt = none) ∧
      ((pos.current_alt = none ∨ ref.inic_alt = none) →
        st'.a = st.a ∧ st'.b = st.b ∧ st'.c = st.c ∧ fn = false)) := by
  constructor
  · intro rowOpt
    exact logStep_not_crash href hlat hlon rowOpt
  · intro row st' fn hw
    obtain ⟨clat, clon, hplat, hplon, hrow, hbr⟩ := logStep_wrote_inv hw
    constructor
    · intro hnone
      subst hrow
      rw [hnone]
      simp [mkRow]
    · intro hmiss
      rcases hbr with ⟨calt, ia, hpalt, hria, _⟩ | ⟨_, hst, hfn⟩
      · rcases hmiss with h | h
        · rw [h] at hpalt
          exact absurd hpalt (by simp)
        · rw [h] at hria
          exact absurd hria (by simp)
      · subst hst
        exact ⟨rfl, rfl, rfl, hfn⟩

theorem exStepNoAlt : logStep exRef exPosNoAlt initState (exO 1) =
    .wrote (mkRow 1 10 20 none (exO 1)) ⟨some 1, 1, 0, 1⟩ false := by
  rw [logStep_accept (by simp [initState])]
  rw [exO_simSec]
  show logWrite exRef ⟨some 1, 1, 0, 1⟩ 1 (exO 1) none (some 10) (some 20) = _
  simp only [logWrite, logEval]

/-- Witness for the amended C8 at a concrete sample without altitude. -/
theorem C8_amended_no_failure_witness :
    logStep exRef exPosNoAlt initState (exO 1) ≠ .crashed none ∧
    (mkRow 1 10 20 none (exO 1)).alt = none ∧
    ((⟨some 1, 1, 0, 1⟩ : RecState).a = initState.a ∧
      (⟨some 1, 1, 0, 1⟩ : RecState).b = initState.b ∧
      (⟨some 1, 1, 0, 1⟩ : RecState).c = initState.c ∧ (false : Bool) = false) := by
  have h := C8_amended_no_failure exRef exPosNoAlt initState (exO 1) exRef_ok
    (by simp [exPosNoAlt]) (by simp [exPosNoAlt])
  exact ⟨h.1 none, (h.2 _ _ _ exStepNoAlt).1 rfl, (h.2 _ _ _ exStepNoAlt).2 (Or.inl rfl)⟩

/-- C5: a sample whose timestamp rounds to the same whole second as the
previously accepted sample is discarded — no row, no state change, the run
continues as if the sample had not arrived; otherwise the sample is
accepted, a row is written and its time becomes the new `last_sim_time`. -/
theorem C5_dedup (ref : EndRef) (pos : Pos) (st : RecState) (o : Odom) (t0 : ℚ)
    (rest : List (Pos × Odom)) (href : RefOk ref)
    (hlat : pos.current_lat.isSome) (hlon : pos.current_lon.isSome)
    (hlst : st.lastSimTime = some t0) :
    (rhe (simSec o) = rhe t0 →
      logStep ref pos st o = .skipped ∧
      runLog ref st ((pos, o) :: rest) = runLog ref st rest) ∧
    (rhe (simSec o) ≠ rhe t0 →
      ∃ row st' fn, logStep ref pos st o = .wrote row st' fn ∧
        st'.lastSimTime = some (simSec o)) := by
  constructor
  · intro hd
    have hsk := @logStep_dup ref pos st o t0 hlst hd
    exact ⟨hsk, by simp [runLog, hsk]⟩
  · intro hd
    have hnd : ∀ t1, st.lastSimTime = some t1 → rhe (simSec o) ≠ rhe t1 := by
      intro t1 ht1
      rw [hlst] at ht1
      obtain rfl : t0 = t1 := Option.some.inj ht1
      exact hd
    cases hval : logStep ref pos st o with
    | skipped =>
      rw [logStep_accept hnd] at hval
      exact absurd hval logWrite_not_skipped
    | crashed rowOpt =>
      exact absurd hval (logStep_not_crash href hlat hlon rowOpt)
    | wrote row st' fn =>
      exact ⟨row, st', fn, rfl, logStep_wrote_lastSimTime hval⟩

/-- Witness for C5: the duplicate-second branch at a concrete sample. -/
theorem C5_dedup_witness :
    logStep exRef exPos ⟨some 1, 2, 0, 1⟩ (exO 1) = .skipped ∧
    runLog exRef ⟨some 1, 2, 0, 1⟩ [(exPos, exO 1)] =
      runLog exRef ⟨some 1, 2, 0, 1⟩ [] :=
  (C5_dedup exRef exPos ⟨some 1, 2, 0, 1⟩ (exO 1) 1 [] exRef_ok
    (by simp [exPos]) (by simp [exPos]) rfl).1 (by rw [exO_simSec]; norm_num)

/-- Witness for C1 at a concrete accepted sample near the expected end with
sample count 25. -/
theorem C1_settled_transition_witness :
    ((⟨some 1, 26, 1, 26⟩ : RecState).a = (⟨none, 25, 0, 1⟩ : RecState).a + 1) ∧
    ((⟨some 1, 26, 1, 26⟩ : RecState).b = 1 ↔
      ((⟨some 1, 26, 1, 26⟩ : RecState).a > 20 ∧ nearEndb exRef exPos = true)) ∧
    ((⟨none, 25, 0, 1⟩ : RecState).b = 0 → (⟨some 1, 26, 1, 26⟩ : RecState).a ≤ 20 →
      (⟨some 1, 26, 1, 26⟩ : RecState).b = 0) := by
  have h := C1_settled_transition exRef exPos ⟨none, 25, 0, 1⟩ (exO 1) _ _ _
    (by simp [exPos]) (by simp [exRef]) exStep1
  exact ⟨h.1, h.2.1 rfl, h.2.2⟩

theorem exStepZeroAlt : logStep exRef exPosZeroAlt initState (exO 1) =
    .wrote (mkRow 1 10 20 (some 0) (exO 1)) ⟨some 1, 2, 0, 1⟩ false := by
  rw [logStep_accept (by simp [initState])]
  rw [exO_simSec]
  show logWrite exRef ⟨some 1, 1, 0, 1⟩ 1 (exO 1) (some 0) (some 10) (some 20) = _
  simp only [logWrite, logEval, exRef, landingEval, settleCheck]
  norm_num

/-- Witness for C10 at a concrete sample whose altitude is exactly zero. -/
theorem C10_alt_zero_null_witness :
    (exPosZeroAlt.current_alt = some 0 → (mkRow 1 10 20 (some 0) (exO 1)).alt = none) ∧
    ((mkRow 1 10 20 (some 0) (exO 1)).alt.isSome ↔
      ∃ v, exPosZeroAlt.current_alt = some v ∧ v ≠ 0) :=
  C10_alt_zero_null exRef exPosZeroAlt initState (exO 1) _ _ _ exStepZeroAlt

theorem runLog_b_mono (ref : EndRef) :
    ∀ (samples : List (Pos × Odom)) (st : RecState), st.b = 1 →
      (runLog ref st samples).state.b = 1 := by
  intro samples
  induction samples with
  | nil =>
    intro st hb
    simpa [runLog] using hb
  | cons p rest ih =>
    intro st hb
    obtain ⟨pos, o⟩ := p
    cases hstep : logStep ref pos st o with
    | skipped => simpa [runLog, hstep] using ih st hb
    | crashed rowOpt => simpa [runLog, hstep] using hb
    | wrote row st' fn =>
      have hb' := (logStep_b_mono hstep hb).1
      cases fn with
      | true => simpa [runLog, hstep] using hb'
      | false => simpa [runLog, hstep] using ih st' hb'

theorem runLog_finished_cond (ref : EndRef) :
    ∀ (samples : List (Pos × Odom)) (st : RecState),
      (runLog ref st samples).out = .finished →
      (runLog ref st samples).state.b = 1 ∧
      (runLog ref st samples).state.a - (runLog ref st samples).state.c > 20 := by
  intro samples
  induction samples with
  | nil =>
    intro st hout
    exact absurd hout (by simp [runLog])
  | cons p rest ih =>
    intro st hout
    obtain ⟨pos, o⟩ := p
    cases hstep : logStep ref pos st o with
    | skipped =>
      rw [show runLog ref st ((pos, o) :: rest) = runLog ref st rest by
        simp [runLog, hstep]] at hout ⊢
      exact ih st hout
    | crashed rowOpt =>
      rw [show runLog ref st ((pos, o) :: rest) =
          ⟨rowOpt.toList, [simSec o], st, .crashed⟩ by simp [runLog, hstep]] at hout
      exact absurd hout (by simp)
    | wrote row st' fn =>
      cases fn with
      | true =>
        rw [show runLog ref st ((pos, o) :: rest) =
            ⟨[row], [simSec o], st', .finished⟩ by simp [runLog, hstep]] at hout ⊢
        exact logStep_finish_cond hstep
      | false =>
        rw [show runLog ref st ((pos, o) :: rest) =
            ⟨row :: (runLog ref st' rest).rows, simSec o :: (runLog ref st' rest).times,
              (runLog ref st' rest).state, (runLog ref st' rest).out⟩ by
          simp [runLog, hstep]] at hout ⊢
        exact ih st' hout

theorem runLog_first_hit (ref : EndRef) (pos : Pos) (st : RecState) (o : Odom)
    (rest : List (Pos × Odom)) (row : Row) (st' : RecState)
    (hw : logStep ref pos st o = .wrote row st' true) :
    runLog ref st ((pos, o) :: rest) = ⟨[row], [simSec o], st', .finished⟩ := by
  simp [runLog, hw]

/-- C2: once the settled flag is 1 it is never un-set by any later sample
(`settledAtSample` is frozen too); a write step terminates the recorder
exactly when, after the landing evaluation, settled holds and the sample
count exceeds `settledAtSample` by more than the settle threshold of 20; the
run stops at the first such sample, ignoring the rest of the stream; and a
run can only finish with a final state satisfying that condition — the sole
normal termination path. -/
theorem C2_settled_sticky_termination :
    (∀ (ref : EndRef) (pos : Pos) (st : RecState) (o : Odom) row st' fn,
      logStep ref pos st o = .wrote row st' fn → st.b = 1 →
      st'.b = 1 ∧ st'.c = st.c) ∧
    (∀ (ref : EndRef) (samples : List (Pos × Odom)) (st : RecState), st.b = 1 →
      (runLog ref st samples).state.b = 1) ∧
    (∀ (ref : EndRef) (pos : Pos) (st : RecState) (o : Odom) row st' fn,
      pos.current_alt.isSome → ref.inic_alt.isSome →
      logStep ref pos st o = .wrote row st' fn →
      (fn = true ↔ (st'.b = 1 ∧ st'.a - st'.c > 20))) ∧
    (∀ (ref : EndRef) (pos : Pos) (st : RecState) (o : Odom) rest row st',
      logStep ref pos st o = .wrote row st' true →
      runLog ref st ((pos, o) :: rest) = ⟨[row], [simSec o], st', .finished⟩) ∧
    (∀ (ref : EndRef) (samples : List (Pos × Odom)) (st : RecState),
      (runLog ref st samples).out = .finished →
      (runLog ref st samples).state.b = 1 ∧
      (runLog ref st samples).state.a - (runLog ref st samples).state.c > 20) :=
  ⟨fun _ _ _ _ _ _ _ hw hb => logStep_b_mono hw hb,
   fun ref samples st hb => runLog_b_mono ref samples st hb,
   fun _ _ _ _ _ _ _ halt hia hw => logStep_finish_iff halt hia hw,
   fun ref pos st o rest row st' hw => runLog_first_hit ref pos st o rest row st' hw,
   fun ref samples st hout => runLog_finished_cond ref samples st hout⟩

theorem exStepFin : logStep exRef exPos ⟨none, 30, 1, 5⟩ (exO 1) =
    .wrote (mkRow 1 10 20 (some 100) (exO 1)) ⟨some 1, 31, 1, 5⟩ true := by
  rw [logStep_accept (by simp)]
  rw [exO_simSec]
  show logWrite exRef ⟨some 1, 30, 1, 5⟩ 1 (exO 1) (some 100) (some 10) (some 20) = _
  simp only [logWrite, logEval, exRef, landingEval, settleCheck]
  norm_num

/-- Witness for C2: a settled state past the second settle window terminates
the run at the very next accepted sample, ignoring the rest of the stream. -/
theorem C2_settled_sticky_termination_witness :
    runLog exRef ⟨none, 30, 1, 5⟩ [(exPos, exO 1), (exPos, exO 2)] =
      ⟨[mkRow 1 10 20 (some 100) (exO 1)], [simSec (exO 1)], ⟨some 1, 31, 1, 5⟩,
        .finished⟩ :=
  C2_settled_sticky_termination.2.2.2.1 exRef exPos ⟨none, 30, 1, 5⟩ (exO 1)
    [(exPos, exO 2)] (mkRow 1 10 20 (some 100) (exO 1)) ⟨some 1, 31, 1, 5⟩ exStepFin

theorem runLog_times_chain (ref : EndRef) :
    ∀ (samples : List (Pos × Odom)) (st : RecState),
      List.Chain' (· ≤ ·) (samples.map fun p => simSec p.2) →
      (∀ t0, st.lastSimTime = some t0 →
        ∀ p, samples.head? = some p → t0 ≤ simSec p.2) →
      List.Chain' (fun s t => rhe s < rhe t) (runLog ref st samples).times ∧
      (∀ t0, st.lastSimTime = some t0 →
        ∀ t1, (runLog ref st samples).times.head? = some t1 → rhe t0 < rhe t1) := by
  intro samples
  induction samples with
  | nil =>
    intro st _ _
    constructor
    · simp [runLog]
    · intro t0 _ t1 h
      simp [runLog] at h
  | cons p rest ih =>
    intro st hchain hbound
    obtain ⟨pos, o⟩ := p
    simp only [List.map_cons] at hchain
    have hchain' : List.Chain' (· ≤ ·) (rest.map fun p => simSec p.2) :=
      (List.chain'_cons'.mp hchain).2
    have hnext : ∀ q, rest.head? = some q → simSec o ≤ simSec q.2 := by
      have h1 := (List.chain'_cons'.mp hchain).1
      intro q hq
      exact h1 _ (by rw [List.head?_map, hq]; rfl)
    cases hstep : logStep ref pos st o with
    | skipped =>
      rcases logStep_dichotomy ref pos st o with ⟨t0, hlst, hd, _⟩ | ⟨hnd, heq⟩
      · have hrun : runLog ref st ((pos, o) :: rest) = runLog ref st rest := by
          simp [runLog, hstep]
        rw [hrun]
        have hb0 : t0 ≤ simSec o := hbound t0 hlst (pos, o) rfl
        have hbound' : ∀ t0', st.lastSimTime = some t0' →
            ∀ q, rest.head? = some q → t0' ≤ simSec q.2 := by
          intro t0' hlst' q hq
          obtain rfl : t0 = t0' := by rw [hlst] at hlst'; exact Option.some.inj hlst'
          exact le_trans hb0 (hnext q hq)
        exact ih st hchain' hbound'
      · rw [heq] at hstep
        exact absurd hstep logWrite_not_skipped
    | crashed rowOpt =>
      have hrun : runLog ref st ((pos, o) :: rest) =
          ⟨rowOpt.toList, [simSec o], st, .crashed⟩ := by simp [runLog, hstep]
      rw [hrun]
      constructor
      · simp
      · intro t0 hlst t1 ht1
        have ht1' : t1 = simSec o := by simpa using ht1.symm
        subst ht1'
        rcases logStep_dichotomy ref pos st o with ⟨t0', hlst', hd, hsk⟩ | ⟨hnd, _⟩
        · rw [hsk] at hstep
          exact absurd hstep (by simp)
        · have hne := hnd t0 hlst
          have hle : rhe t0 ≤ rhe (simSec o) := rhe_mono (hbound t0 hlst (pos, o) rfl)
          omega
    | wrote row st' fn =>
      have hlst' := logStep_wrote_lastSimTime hstep
      have hnd : ∀ t0, st.lastSimTime = some t0 → rhe (simSec o) ≠ rhe t0 := by
        rcases logStep_dichotomy ref pos st o with ⟨t0', hl, hd, hsk⟩ | ⟨hnd, _⟩
        · rw [hsk] at hstep
          exact absurd hstep (by simp)
        · exact hnd
      have hbound' : ∀ t0', st'.lastSimTime = some t0' →
          ∀ q, rest.head? = some q → t0' ≤ simSec q.2 := by
        intro t0' h q hq
        obtain rfl : simSec o = t0' := by rw [hlst'] at h; exact Option.some.inj h
        exact hnext q hq
      cases fn with
      | true =>
        rw [runLog_first_hit ref pos st o rest row st' hstep]
        constructor
        · simp
        · intro t0 hlst t1 ht1
          have ht1' : t1 = simSec o := by simpa using ht1.symm
          subst ht1'
          have hne := hnd t0 hlst
          have hle : rhe t0 ≤ rhe (simSec o) := rhe_mono (hbound t0 hlst (pos, o) rfl)
          omega
      | false =>
        have hrun : runLog ref st ((pos, o) :: rest) =
            ⟨row :: (runLog ref st' rest).rows, simSec o :: (runLog ref st' rest).times,
              (runLog ref st' rest).state, (runLog ref st' rest).out⟩ := by
          simp [runLog, hstep]
        rw [hrun]
        obtain ⟨ihchain, ihhead⟩ := ih st' hchain' hbound'
        constructor
        · rw [List.chain'_cons']
          refine ⟨?_, ihchain⟩
          intro y hy
          exact ihhead (simSec o) hlst' y hy
        · intro t0 hlst0 t1 ht1
          have ht1' : t1 = simSec o := by simpa using ht1.symm
          subst ht1'
          have hne := hnd t0 hlst0
          have hle : rhe t0 ≤ rhe (simSec o) := rhe_mono (hbound t0 hlst0 (pos, o) rfl)
          omega

theorem runLog_rows_times (ref : EndRef) (href : RefOk ref) :
    ∀ (samples : List (Pos × Odom)) (st : RecState),
      (∀ p, p ∈ samples → p.1.current_lat.isSome ∧ p.1.current_lon.isSome) →
      (runLog ref st samples).rows.map Row.simTime =
        (runLog ref st samples).times.map (roundTo 2) := by
  intro samples
  induction samples with
  | nil =>
    intro st _
    simp [runLog]
  | cons p rest ih =>
    intro st hall
    obtain ⟨pos, o⟩ := p
    have hp := hall (pos, o) (by simp)
    have hall' : ∀ q, q ∈ rest → q.1.current_lat.isSome ∧ q.1.current_lon.isSome :=
      fun q hq => hall q (by simp [hq])
    cases hstep : logStep ref pos st o with
    | skipped =>
      have hrun : runLog ref st ((pos, o) :: rest) = runLog ref st rest := by
        simp [runLog, hstep]
      rw [hrun]
      exact ih st hall'
    | crashed rowOpt =>
      exact absurd hstep (logStep_not_crash href hp.1 hp.2 rowOpt)
    | wrote row st' fn =>
      have hrow : row.simTime = roundTo 2 (simSec o) := by
        obtain ⟨clat, clon, _, _, hrw, _⟩ := logStep_wrote_inv hstep
        rw [hrw]
        rfl
      cases fn with
      | true =>
        rw [runLog_first_hit ref pos st o rest row st' hstep]
        simp [hrow]
      | false =>
        have hrun : runLog ref st ((pos, o) :: rest) =
            ⟨row :: (runLog ref st' rest).rows, simSec o :: (runLog ref st' rest).times,
              (runLog ref st' rest).state, (runLog ref st' rest).out⟩ := by
          simp [runLog, hstep]
        rw [hrun]
        simp only [List.map_cons, hrow]
        rw [ih st' hall']

theorem exStep5 : logStep exRef exPos initState (exO 5) =
    .wrote (mkRow 5 10 20 (some 100) (exO 5)) ⟨some 5, 2, 0, 1⟩ false := by
  rw [logStep_accept (by simp [initState])]
  rw [exO_simSec]
  show logWrite exRef ⟨some 5, 1, 0, 1⟩ 5 (exO 5) (some 100) (some 10) (some 20) = _
  simp only [logWrite, logEval, exRef, landingEval, settleCheck]
  norm_num

theorem exStep53 : logStep exRef exPos ⟨some 5, 2, 0, 1⟩ (exO 3) =
    .wrote (mkRow 3 10 20 (some 100) (exO 3)) ⟨some 3, 3, 0, 1⟩ false := by
  rw [logStep_accept (by
    intro t0 h
    obtain rfl : (5 : ℚ) = t0 := Option.some.inj h
    rw [exO_simSec]
    norm_num [rhe])]
  rw [exO_simSec]
  show logWrite exRef ⟨some 3, 2, 0, 1⟩ 3 (exO 3) (some 100) (some 10) (some 20) = _
  simp only [logWrite, logEval, exRef, landingEval, settleCheck]
  norm_num

/-- C6 counterexample: a stream whose timestamps go backwards (5 s then 3 s)
produces rows whose whole-second roundings are 5 then 3 — not strictly
increasing — because the de-duplication only compares for equality with the
previously accepted sample. -/
theorem C6_counterexample :
    (runLog exRef initState [(exPos, exO 5), (exPos, exO 3)]).rows.map
      (fun row => rhe row.simTime) = [5, 3] ∧
    ¬ List.Chain' (fun x y => x < y) [(5 : ℤ), 3] := by
  constructor
  · have hrun : runLog exRef initState [(exPos, exO 5), (exPos, exO 3)] =
        ⟨[mkRow 5 10 20 (some 100) (exO 5), mkRow 3 10 20 (some 100) (exO 3)],
          [simSec (exO 5), simSec (exO 3)], ⟨some 3, 3, 0, 1⟩, .exhausted⟩ := by
      simp [runLog, exStep5, exStep53]
    rw [hrun]
    simp only [List.map_cons, List.map_nil, mkRow]
    norm_num [roundTo, rhe]
  · rw [List.chain'_cons]
    simp

/-- C6 amended: for every input stream whose timestamps are nondecreasing,
the accepted samples' whole-second roundings are strictly increasing, and
each appended row records as SimTime the 2-decimal rounding of its accepted
sample time (so rows are appended only when the rounded second strictly
increases). -/
theorem C6_amended_times_increasing (ref : EndRef) (samples : List (Pos × Odom))
    (hchain : List.Chain' (· ≤ ·) (samples.map fun p => simSec p.2)) :
    List.Chain' (fun s t => rhe s < rhe t) (runLog ref initState samples).times ∧
    (RefOk ref →
      (∀ p, p ∈ samples → p.1.current_lat.isSome ∧ p.1.current_lon.isSome) →
      (runLog ref initState samples).rows.map Row.simTime =
        (runLog ref initState samples).times.map (roundTo 2)) := by
  constructor
  · exact (runLog_times_chain ref samples initState hchain (by simp [initState])).1
  · intro href hall
    exact runLog_rows_times ref href samples initState hall

/-- Witness for the amended C6 on a concrete nondecreasing stream. -/
theorem C6_amended_times_increasing_witness :
    List.Chain' (fun s t => rhe s < rhe t)
      (runLog exRef initState [(exPos, exO 1), (exPos, exO 2)]).times ∧
    (runLog exRef initState [(exPos, exO 1), (exPos, exO 2)]).rows.map Row.simTime =
      (runLog exRef initState [(exPos, exO 1), (exPos, exO 2)]).times.map (roundTo 2) := by
  have h := C6_amended_times_increasing exRef [(exPos, exO 1), (exPos, exO 2)]
    (by simp [exO_simSec])
  refine ⟨h.1, h.2 exRef_ok ?_⟩
  intro p hp
  simp only [List.mem_cons, List.not_mem_nil, or_false] at hp
  rcases hp with rfl | rfl <;> simp [exPos]
